import Mathlib

/-!
Verification of the role-tag blacklist tidy operation
(`builtin/credential/aws/path_tidy_roletag_blacklist.go`).

The sweep `tidyBlacklistRoleTag` is embedded shallowly: Go strings become
lists of characters, the storage collaborator becomes an association list
from keys to raw payloads together with explicit failure-injection sets for
the fallible `Get`/`Delete`/`List` calls, the process-wide CAS guard becomes
an explicit natural-number argument threaded through the call, and the
wall clock becomes an explicit integer parameter (nanoseconds, mirroring
`time.Time`/`time.Duration`).  JSON decoding (`logical.StorageEntry.DecodeJSON`,
not part of the extracted source) is a parameter: an arbitrary function from
the raw payload to either a decoded entry or an error message, which mirrors
the fact that the decode result in Go depends only on the entry's `Value`.
The sweep additionally records the trace of storage operations it performs,
so that claims about which operations happen can be stated directly.
-/

set_option maxHeartbeats 1000000

/-- Storage keys: Go strings, modelled as lists of characters. -/
abbrev Key := List Char

/-- Raw entry payloads: Go byte slices, modelled as lists of naturals.
`[]` plays the role of both `nil` and zero-length `Value` (the Go code
treats the two identically). -/
abbrev Payload := List Nat

/-- `roleTagBlacklistEntry`: the sweep reads only `ExpirationTime`
(an absolute timestamp, in nanoseconds as in Go `time.Time`); the other
fields are never consulted and are not modelled. -/
structure BlacklistEntry where
  expirationTime : Int
  deriving DecidableEq

/-- One storage operation performed by the sweep, as observed at the
`logical.Storage` interface, plus the deferred release of the CAS guard. -/
inductive StorageOp where
  | list (ns : Key)
  | get (k : Key)
  | delete (k : Key)
  | storeGuard
  deriving DecidableEq

/-- The storage collaborator: the persisted key/value data, plus
failure injection for the three fallible calls (`List` fails as a whole;
`Get`/`Delete` fail on the given keys). -/
structure StorageModel where
  data : List (Key × Payload)
  listFails : Bool
  getFails : List Key
  deleteFails : List Key
  deriving DecidableEq

/-- Storage lookup (`s.Get`): first binding of the key, if any. -/
def dataLookup : List (Key × Payload) → Key → Option Payload
  | [], _ => none
  | p :: rest, k => if p.1 = k then some p.2 else dataLookup rest k

/-- Storage deletion (`s.Delete`): removes the bindings of the key. -/
def dataDelete : List (Key × Payload) → Key → List (Key × Payload)
  | [], _ => []
  | p :: rest, k => if p.1 = k then dataDelete rest k else p :: dataDelete rest k

/-- `startsWithKey p k` holds when the key `k` begins with `p`
(Go `strings.HasPrefix`). -/
def startsWithKey : Key → Key → Bool
  | [], _ => true
  | _ :: _, [] => false
  | c :: cs, d :: ds => c = d && startsWithKey cs ds

/-- The leading path component of a key suffix, up to and including the
first `/` — how Vault's storage backends turn the keys below a namespace
into the list returned by `List` (deeper keys show up as `"dir/"`). -/
def firstComponent : Key → Key
  | [] => []
  | c :: cs => if c = '/' then ['/'] else c :: firstComponent cs

/-- The namespace used for listing and fetching: `"blacklist/roletag/"`
(source lines 45 and 51). -/
def roletagListNS : Key := "blacklist/roletag/".toList

/-- The string concatenated with the tag to build the delete key:
`"blacklist/roletag"`, with no trailing separator (source line 70). -/
def roletagDeleteNS : Key := "blacklist/roletag".toList

/-- The key the sweep fetches a tag's entry from: `"blacklist/roletag/" + tag`. -/
def getKeyOf (tag : Key) : Key := roletagListNS ++ tag

/-- The key the sweep deletes a tag's entry at: `"blacklist/roletag" + tag`. -/
def deleteKeyOf (tag : Key) : Key := roletagDeleteNS ++ tag

/-- `s.List "blacklist/roletag/"`: the deduplicated leading components of
the suffixes of all stored keys below the namespace. -/
def listUnder (data : List (Key × Payload)) : List Key :=
  (data.filterMap fun p =>
    if startsWithKey roletagListNS p.1 then
      some (firstComponent (p.1.drop roletagListNS.length))
    else none).dedup

/-- The errors `tidyBlacklistRoleTag` can return, one constructor per
`return` site, each carrying exactly the context the Go error value carries.
`decodeFailure` carries only the decoder's own message: the Go code returns
the error of `tagEntry.DecodeJSON(&result)` unwrapped, and that error is a
function of the payload alone. -/
inductive SweepError where
  | alreadyRunning
  | listFailure
  | fetchFailure (tag : Key)
  | nilEntry (tag : Key)
  | emptyEntry (tag : Key)
  | decodeFailure (msg : String)
  | deleteFailure (tag : Key)
  deriving DecidableEq

/-- Everything an invocation of the sweep produces: the returned error
(`none` = the Go `nil`), the storage data on return, the guard flag on
return, and the trace of operations performed. -/
structure SweepOutcome where
  err : Option SweepError
  data : List (Key × Payload)
  guard : Nat
  ops : List StorageOp
  deriving DecidableEq

/-- The `for _, tag := range tags` loop of `tidyBlacklistRoleTag`
(source lines 50–74): fetch, nil check, empty check, decode, expiration
check, delete — aborting the whole sweep at the first error. -/
def tidyLoop (decode : Payload → Except String BlacklistEntry) (st : StorageModel)
    (bufferDuration now : Int) :
    List Key → List (Key × Payload) →
    Option SweepError × List (Key × Payload) × List StorageOp
  | [], data => (none, data, [])
  | tag :: rest, data =>
    if getKeyOf tag ∈ st.getFails then
      (some (.fetchFailure tag), data, [.get (getKeyOf tag)])
    else
      match dataLookup data (getKeyOf tag) with
      | none => (some (.nilEntry tag), data, [.get (getKeyOf tag)])
      | some v =>
        if v = [] then
          (some (.emptyEntry tag), data, [.get (getKeyOf tag)])
        else
          match decode v with
          | .error msg => (some (.decodeFailure msg), data, [.get (getKeyOf tag)])
          | .ok entry =>
            if now > entry.expirationTime + bufferDuration then
              if deleteKeyOf tag ∈ st.deleteFails then
                (some (.deleteFailure tag), data,
                  [.get (getKeyOf tag), .delete (deleteKeyOf tag)])
              else
                match tidyLoop decode st bufferDuration now rest
                    (dataDelete data (deleteKeyOf tag)) with
                | (res, dataF, ops) =>
                  (res, dataF, .get (getKeyOf tag) :: .delete (deleteKeyOf tag) :: ops)
            else
              match tidyLoop decode st bufferDuration now rest data with
              | (res, dataF, ops) => (res, dataF, .get (getKeyOf tag) :: ops)

/-- `tidyBlacklistRoleTag` (source lines 36–77).  `guard` is the value of
`b.tidyBlacklistCASGuard` when the invocation runs its compare-and-swap:
`0` means the CAS succeeds and the deferred store resets the flag to `0`
on every return path; any other value means the CAS fails and the sweep
returns the already-running error having touched nothing.
`bufferDuration := safety_buffer * 1000000000` mirrors
`time.Duration(safety_buffer) * time.Second` in nanoseconds. -/
def tidyBlacklistRoleTag (decode : Payload → Except String BlacklistEntry)
    (st : StorageModel) (guard : Nat) (safety_buffer now : Int) : SweepOutcome :=
  if guard = 0 then
    if st.listFails then
      { err := some .listFailure, data := st.data, guard := 0,
        ops := [.list roletagListNS, .storeGuard] }
    else
      match tidyLoop decode st (safety_buffer * 1000000000) now
          (listUnder st.data) st.data with
      | (res, dataF, ops) =>
        { err := res, data := dataF, guard := 0,
          ops := StorageOp.list roletagListNS :: (ops ++ [StorageOp.storeGuard]) }
  else
    { err := some .alreadyRunning, data := st.data, guard := guard, ops := [] }

/-- A sample decoder used to instantiate the decode parameter in concrete
runs: a single byte `[n]` decodes to the entry expiring at time `n`;
anything else fails with a fixed message, the way `DecodeJSON` fails with
a message that depends only on the payload. -/
def decode0 : Payload → Except String BlacklistEntry
  | [n] => Except.ok ⟨Int.ofNat n⟩
  | _ => Except.error "json: cannot unmarshal"

/-- The expiration test of source line 69, evaluated against a data state:
`true` exactly when the tag's entry is present, non-empty, decodes, and
`now > expirationTime + bufferDuration`. -/
def expiredTagB (decode : Payload → Except String BlacklistEntry)
    (bufferDuration now : Int) (data : List (Key × Payload)) (tag : Key) : Bool :=
  match dataLookup data (getKeyOf tag) with
  | none => false
  | some v =>
    if v = [] then false
    else
      match decode v with
      | .error _ => false
      | .ok entry => decide (now > entry.expirationTime + bufferDuration)

/-- `segmentOK tags data` holds when the loop, started on `data`, processes
every tag in `tags` without aborting: each fetch succeeds and finds a
non-empty payload that decodes, and each delete the loop issues succeeds. -/
def segmentOK (decode : Payload → Except String BlacklistEntry) (st : StorageModel)
    (bufferDuration now : Int) : List Key → List (Key × Payload) → Bool
  | [], _ => true
  | t :: ts, data =>
    !decide (getKeyOf t ∈ st.getFails) &&
      match dataLookup data (getKeyOf t) with
      | none => false
      | some v =>
        !decide (v = []) &&
          match decode v with
          | .error _ => false
          | .ok entry =>
            if now > entry.expirationTime + bufferDuration then
              !decide (deleteKeyOf t ∈ st.deleteFails) &&
                segmentOK decode st bufferDuration now ts (dataDelete data (deleteKeyOf t))
            else segmentOK decode st bufferDuration now ts data

/-- The data state after the loop has processed the given tags without
aborting: each tag evaluated as expired has its delete key removed. -/
def sweepData (decode : Payload → Except String BlacklistEntry)
    (bufferDuration now : Int) : List Key → List (Key × Payload) → List (Key × Payload)
  | [], data => data
  | t :: ts, data =>
    if expiredTagB decode bufferDuration now data t then
      sweepData decode bufferDuration now ts (dataDelete data (deleteKeyOf t))
    else sweepData decode bufferDuration now ts data

/-- The operations the loop performs while processing the given tags without
aborting: a fetch for every tag, and a delete for each tag evaluated as
expired. -/
def sweepOps (decode : Payload → Except String BlacklistEntry)
    (bufferDuration now : Int) : List Key → List (Key × Payload) → List StorageOp
  | [], _ => []
  | t :: ts, data =>
    if expiredTagB decode bufferDuration now data t then
      StorageOp.get (getKeyOf t) :: StorageOp.delete (deleteKeyOf t) ::
        sweepOps decode bufferDuration now ts (dataDelete data (deleteKeyOf t))
    else StorageOp.get (getKeyOf t) :: sweepOps decode bufferDuration now ts data

/-- Well-formedness of the stored data, as Vault's logical storage keeps it:
keys ending in the path separator denote directories, not entries, so no
stored binding's key ends in a slash. -/
def NoDirEntries (data : List (Key × Payload)) : Prop :=
  ∀ p ∈ data, p.1.getLast? ≠ some '/'

/-! ### Basic facts about the storage model -/

theorem dataLookup_dataDelete (data : List (Key × Payload)) (dk k : Key) :
    dataLookup (dataDelete data dk) k =
      if k = dk then none else dataLookup data k := by
  induction data with
  | nil => by_cases h : k = dk <;> simp [dataDelete, dataLookup, h]
  | cons p rest ih =>
    by_cases h1 : p.1 = dk
    · by_cases h2 : k = dk
      · subst h2
        simp [dataDelete, h1, ih]
      · have hp : p.1 ≠ k := fun hh => h2 (hh.symm.trans h1)
        have hdk : dk ≠ k := fun hh => h2 hh.symm
        simp [dataDelete, dataLookup, h1, ih, h2, hp, hdk]
    · by_cases h3 : p.1 = k
      · have h2 : k ≠ dk := fun hh => h1 (h3.trans hh)
        simp [dataDelete, dataLookup, h1, h3, h2]
      · simp [dataDelete, dataLookup, h1, h3, ih]

theorem dataLookup_dataDelete_ne (data : List (Key × Payload)) {dk k : Key}
    (h : k ≠ dk) : dataLookup (dataDelete data dk) k = dataLookup data k := by
  rw [dataLookup_dataDelete, if_neg h]

theorem dataLookup_dataDelete_sub (data : List (Key × Payload)) {dk k : Key}
    {v : Payload} (h : dataLookup (dataDelete data dk) k = some v) :
    dataLookup data k = some v := by
  rw [dataLookup_dataDelete] at h
  by_cases h2 : k = dk
  · rw [if_pos h2] at h
    cases h
  · rwa [if_neg h2] at h

theorem exists_of_dataLookup {data : List (Key × Payload)} {k : Key} {v : Payload}
    (h : dataLookup data k = some v) : ∃ p ∈ data, p.1 = k := by
  induction data with
  | nil => cases h
  | cons p rest ih =>
    rw [dataLookup] at h
    by_cases h1 : p.1 = k
    · exact ⟨p, by simp, h1⟩
    · rw [if_neg h1] at h
      rcases ih h with ⟨q, hq, hqk⟩
      exact ⟨q, by simp [hq], hqk⟩

/-! ### Facts about the key construction -/

theorem listNS_eq_deleteNS_append : roletagListNS = roletagDeleteNS ++ ['/'] := by
  decide

theorem deleteKeyOf_inj {a b : Key} (h : deleteKeyOf a = deleteKeyOf b) : a = b := by
  unfold deleteKeyOf at h
  have h2 := congrArg (List.drop roletagDeleteNS.length) h
  rwa [List.drop_left, List.drop_left] at h2

theorem deleteKeyOf_eq_getKeyOf {a b : Key} :
    deleteKeyOf a = getKeyOf b ↔ a = '/' :: b := by
  constructor
  · intro h
    unfold deleteKeyOf getKeyOf at h
    rw [listNS_eq_deleteNS_append, List.append_assoc] at h
    have h2 := congrArg (List.drop roletagDeleteNS.length) h
    rwa [List.drop_left, List.drop_left] at h2
  · intro h
    subst h
    unfold deleteKeyOf getKeyOf
    rw [listNS_eq_deleteNS_append, List.append_assoc]
    rfl

theorem getKeyOf_nil : getKeyOf [] = roletagListNS := by
  simp [getKeyOf]

/-! ### Facts about listing -/

theorem firstComponent_of_no_slash {t : Key} (h : '/' ∉ t) : firstComponent t = t := by
  induction t with
  | nil => rfl
  | cons c cs ih =>
    simp only [List.mem_cons, not_or] at h
    rw [firstComponent, if_neg (fun hc => h.1 hc.symm), ih h.2]

theorem firstComponent_slash_head {t r : Key}
    (h : firstComponent t = '/' :: r) : r = [] := by
  cases t with
  | nil => cases h
  | cons c cs =>
    rw [firstComponent] at h
    by_cases hc : c = '/'
    · rw [if_pos hc] at h
      injection h with _ h2
      exact h2.symm
    · rw [if_neg hc] at h
      injection h with h1 _
      exact absurd h1 hc

theorem mem_listUnder {data : List (Key × Payload)} {t : Key}
    (h : t ∈ listUnder data) :
    ∃ p ∈ data, startsWithKey roletagListNS p.1 = true ∧
      t = firstComponent (p.1.drop roletagListNS.length) := by
  unfold listUnder at h
  rw [List.mem_dedup, List.mem_filterMap] at h
  rcases h with ⟨p, hp, he⟩
  by_cases hs : startsWithKey roletagListNS p.1 = true
  · rw [if_pos hs] at he
    injection he with he
    exact ⟨p, hp, hs, he.symm⟩
  · rw [if_neg hs] at he
    cases he

theorem listUnder_nodup (data : List (Key × Payload)) : (listUnder data).Nodup :=
  List.nodup_dedup _

/-! ### Structural facts about the sweep loop -/

theorem expiredTagB_congr (decode : Payload → Except String BlacklistEntry)
    (buf now : Int) {data1 data2 : List (Key × Payload)} {t : Key}
    (h : dataLookup data1 (getKeyOf t) = dataLookup data2 (getKeyOf t)) :
    expiredTagB decode buf now data1 t = expiredTagB decode buf now data2 t := by
  unfold expiredTagB
  rw [h]

theorem tidyLoop_ops_mem (decode : Payload → Except String BlacklistEntry)
    (st : StorageModel) (buf now : Int) :
    ∀ (tags : List Key) (data : List (Key × Payload)) (op : StorageOp),
      op ∈ (tidyLoop decode st buf now tags data).2.2 →
      ∃ t ∈ tags,
        op = StorageOp.get (getKeyOf t) ∨ op = StorageOp.delete (deleteKeyOf t) := by
  intro tags
  induction tags with
  | nil =>
    intro data op h
    simp [tidyLoop] at h
  | cons t rest ih =>
    intro data op h
    simp only [tidyLoop] at h
    by_cases h1 : getKeyOf t ∈ st.getFails
    · rw [if_pos h1] at h
      simp at h
      exact ⟨t, by simp, Or.inl h⟩
    · rw [if_neg h1] at h
      rcases hl : dataLookup data (getKeyOf t) with _ | v
      · rw [hl] at h
        simp at h
        exact ⟨t, by simp, Or.inl h⟩
      · rw [hl] at h
        dsimp only at h
        by_cases h2 : v = []
        · rw [if_pos h2] at h
          simp at h
          exact ⟨t, by simp, Or.inl h⟩
        · rw [if_neg h2] at h
          rcases hd : decode v with msg | entry
          · rw [hd] at h
            simp at h
            exact ⟨t, by simp, Or.inl h⟩
          · rw [hd] at h
            dsimp only at h
            by_cases h3 : now > entry.expirationTime + buf
            · rw [if_pos h3] at h
              by_cases h4 : deleteKeyOf t ∈ st.deleteFails
              · rw [if_pos h4] at h
                simp at h
                rcases h with h | h
                · exact ⟨t, by simp, Or.inl h⟩
                · exact ⟨t, by simp, Or.inr h⟩
              · rw [if_neg h4] at h
                simp at h
                rcases h with h | h | h
                · exact ⟨t, by simp, Or.inl h⟩
                · exact ⟨t, by simp, Or.inr h⟩
                · rcases ih _ op h with ⟨q, hq, hop⟩
                  exact ⟨q, by simp [hq], hop⟩
            · rw [if_neg h3] at h
              simp at h
              rcases h with h | h
              · exact ⟨t, by simp, Or.inl h⟩
              · rcases ih _ op h with ⟨q, hq, hop⟩
                exact ⟨q, by simp [hq], hop⟩

theorem tidyLoop_basic (decode : Payload → Except String BlacklistEntry)
    (st : StorageModel) (buf now : Int) :
    ∀ (tags : List Key) (data : List (Key × Payload)),
      (tidyLoop decode st buf now tags data).1 ≠ some SweepError.alreadyRunning ∧
      (tidyLoop decode st buf now tags data).1 ≠ some SweepError.listFailure ∧
      ∀ k v, dataLookup (tidyLoop decode st buf now tags data).2.1 k = some v →
        dataLookup data k = some v := by
  intro tags
  induction tags with
  | nil =>
    intro data
    simp [tidyLoop]
  | cons t rest ih =>
    intro data
    simp only [tidyLoop]
    by_cases h1 : getKeyOf t ∈ st.getFails
    · rw [if_pos h1]
      simp
    · rw [if_neg h1]
      rcases hl : dataLookup data (getKeyOf t) with _ | v
      · simp
      · dsimp only
        by_cases h2 : v = []
        · rw [if_pos h2]
          simp
        · rw [if_neg h2]
          rcases hd : decode v with msg | entry
          · simp
          · dsimp only
            by_cases h3 : now > entry.expirationTime + buf
            · rw [if_pos h3]
              by_cases h4 : deleteKeyOf t ∈ st.deleteFails
              · rw [if_pos h4]
                simp
              · rw [if_neg h4]
                dsimp only
                refine ⟨(ih _).1, (ih _).2.1, ?_⟩
                intro k v2 hv2
                exact dataLookup_dataDelete_sub data
                  ((ih (dataDelete data (deleteKeyOf t))).2.2 k v2 hv2)
            · rw [if_neg h3]
              dsimp only
              exact ih data

theorem tidyLoop_lookup_preserved (decode : Payload → Except String BlacklistEntry)
    (st : StorageModel) (buf now : Int) :
    ∀ (tags : List Key) (data : List (Key × Payload)) (k : Key),
      (∀ t ∈ tags, deleteKeyOf t ≠ k) →
      dataLookup (tidyLoop decode st buf now tags data).2.1 k = dataLookup data k := by
  intro tags
  induction tags with
  | nil =>
    intro data k _
    simp [tidyLoop]
  | cons t rest ih =>
    intro data k hk
    simp only [tidyLoop]
    by_cases h1 : getKeyOf t ∈ st.getFails
    · rw [if_pos h1]
    · rw [if_neg h1]
      rcases hl : dataLookup data (getKeyOf t) with _ | v
      · simp
      · dsimp only
        by_cases h2 : v = []
        · rw [if_pos h2]
        · rw [if_neg h2]
          rcases hd : decode v with msg | entry
          · simp
          · dsimp only
            by_cases h3 : now > entry.expirationTime + buf
            · rw [if_pos h3]
              by_cases h4 : deleteKeyOf t ∈ st.deleteFails
              · rw [if_pos h4]
              · rw [if_neg h4]
                dsimp only
                rw [ih (dataDelete data (deleteKeyOf t)) k
                  (fun q hq => hk q (by simp [hq]))]
                exact dataLookup_dataDelete_ne data (hk t (by simp)).symm
            · rw [if_neg h3]
              dsimp only
              exact ih data k (fun q hq => hk q (by simp [hq]))

theorem tidyLoop_no_delete_of_unexpired (decode : Payload → Except String BlacklistEntry)
    (st : StorageModel) (buf now : Int) :
    ∀ (tags : List Key) (data : List (Key × Payload)) (t : Key),
      (∀ q ∈ tags, deleteKeyOf q ≠ getKeyOf t) →
      expiredTagB decode buf now data t = false →
      StorageOp.delete (deleteKeyOf t) ∉ (tidyLoop decode st buf now tags data).2.2 := by
  intro tags
  induction tags with
  | nil =>
    intro data t _ _
    simp [tidyLoop]
  | cons q rest ih =>
    intro data t hstab hexp
    simp only [tidyLoop]
    by_cases h1 : getKeyOf q ∈ st.getFails
    · rw [if_pos h1]
      simp
    · rw [if_neg h1]
      rcases hl : dataLookup data (getKeyOf q) with _ | v
      · simp
      · dsimp only
        by_cases h2 : v = []
        · rw [if_pos h2]
          simp
        · rw [if_neg h2]
          rcases hd : decode v with msg | entry
          · simp
          · dsimp only
            by_cases h3 : now > entry.expirationTime + buf
            · have hqt : deleteKeyOf q ≠ deleteKeyOf t := by
                intro he
                have hq2 := deleteKeyOf_inj he
                subst hq2
                simp [expiredTagB, hl, h2, hd, h3] at hexp
              rw [if_pos h3]
              by_cases h4 : deleteKeyOf q ∈ st.deleteFails
              · rw [if_pos h4]
                simp [Ne.symm hqt]
              · rw [if_neg h4]
                dsimp only
                have hcongr : dataLookup (dataDelete data (deleteKeyOf q)) (getKeyOf t) =
                    dataLookup data (getKeyOf t) :=
                  dataLookup_dataDelete_ne data (hstab q (by simp)).symm
                have hexp2 : expiredTagB decode buf now
                    (dataDelete data (deleteKeyOf q)) t = false := by
                  rw [expiredTagB_congr decode buf now hcongr]
                  exact hexp
                simp only [List.mem_cons, not_or]
                exact ⟨by simp, by simp [Ne.symm hqt],
                  ih _ t (fun r hr => hstab r (by simp [hr])) hexp2⟩
            · rw [if_neg h3]
              dsimp only
              simp only [List.mem_cons, not_or]
              exact ⟨by simp, ih data t (fun r hr => hstab r (by simp [hr])) hexp⟩

theorem tidyLoop_segment (decode : Payload → Except String BlacklistEntry)
    (st : StorageModel) (buf now : Int) :
    ∀ (pre rest : List Key) (data : List (Key × Payload)),
      segmentOK decode st buf now pre data = true →
      tidyLoop decode st buf now (pre ++ rest) data =
        ((tidyLoop decode st buf now rest (sweepData decode buf now pre data)).1,
         (tidyLoop decode st buf now rest (sweepData decode buf now pre data)).2.1,
         sweepOps decode buf now pre data ++
           (tidyLoop decode st buf now rest (sweepData decode buf now pre data)).2.2) := by
  intro pre
  induction pre with
  | nil =>
    intro rest data _
    simp [sweepData, sweepOps]
  | cons t pre2 ih =>
    intro rest data hseg
    simp only [segmentOK] at hseg
    rcases hl : dataLookup data (getKeyOf t) with _ | v
    · rw [hl] at hseg
      simp at hseg
    · rw [hl] at hseg
      dsimp only at hseg
      rcases hd : decode v with msg | entry
      · rw [hd] at hseg
        simp at hseg
      · rw [hd] at hseg
        dsimp only at hseg
        simp only [Bool.and_eq_true, Bool.not_eq_true', decide_eq_false_iff_not] at hseg
        rcases hseg with ⟨h1, h2, hc⟩
        by_cases h3 : now > entry.expirationTime + buf
        · rw [if_pos h3] at hc
          simp only [Bool.and_eq_true, Bool.not_eq_true', decide_eq_false_iff_not] at hc
          rcases hc with ⟨h4, hseg2⟩
          have hexpT : expiredTagB decode buf now data t = true := by
            simp [expiredTagB, hl, h2, hd, h3]
          simp only [List.cons_append, tidyLoop, List.append_eq]
          rw [if_neg h1, hl]
          dsimp only
          rw [if_neg h2, hd]
          dsimp only
          rw [if_pos h3, if_neg h4]
          rw [ih rest (dataDelete data (deleteKeyOf t)) hseg2]
          simp only [sweepData, sweepOps, hexpT, if_true, List.cons_append]
        · rw [if_neg h3] at hc
          have hexpF : expiredTagB decode buf now data t = false := by
            simp [expiredTagB, hl, h2, hd, h3]
          simp only [List.cons_append, tidyLoop, List.append_eq]
          rw [if_neg h1, hl]
          dsimp only
          rw [if_neg h2, hd]
          dsimp only
          rw [if_neg h3]
          rw [ih rest data hc]
          simp [sweepData, sweepOps, hexpF, List.cons_append]

theorem tidy_grabbed (decode : Payload → Except String BlacklistEntry)
    (st : StorageModel) (safety_buffer now : Int) (hlf : st.listFails = false) :
    tidyBlacklistRoleTag decode st 0 safety_buffer now =
      { err := (tidyLoop decode st (safety_buffer * 1000000000) now
          (listUnder st.data) st.data).1,
        data := (tidyLoop decode st (safety_buffer * 1000000000) now
          (listUnder st.data) st.data).2.1,
        guard := 0,
        ops := StorageOp.list roletagListNS ::
          ((tidyLoop decode st (safety_buffer * 1000000000) now
            (listUnder st.data) st.data).2.2 ++ [StorageOp.storeGuard]) } := by
  simp [tidyBlacklistRoleTag, hlf]

theorem tidyLoop_no_storeGuard (decode : Payload → Except String BlacklistEntry)
    (st : StorageModel) (buf now : Int) (tags : List Key)
    (data : List (Key × Payload)) :
    StorageOp.storeGuard ∉ (tidyLoop decode st buf now tags data).2.2 := by
  intro h
  rcases tidyLoop_ops_mem decode st buf now tags data _ h with ⟨t, _, hop | hop⟩ <;>
    simp at hop

theorem bool_false_of_not_true {b : Bool} (h : ¬ b = true) : b = false := by
  cases hb : b
  · rfl
  · exact absurd hb h

theorem tidy_not_alreadyRunning (decode : Payload → Except String BlacklistEntry)
    (st : StorageModel) (safety_buffer now : Int) :
    (tidyBlacklistRoleTag decode st 0 safety_buffer now).err ≠
      some SweepError.alreadyRunning := by
  by_cases hlf : st.listFails = true
  · simp [tidyBlacklistRoleTag, hlf]
  · rw [tidy_grabbed decode st safety_buffer now (bool_false_of_not_true hlf)]
    exact (tidyLoop_basic decode st (safety_buffer * 1000000000) now
      (listUnder st.data) st.data).1

theorem startsWithKey_append (p s : Key) : startsWithKey p (p ++ s) = true := by
  induction p with
  | nil => rfl
  | cons c cs ih => simp [startsWithKey, ih]

theorem listUnder_singleton (tag : Key) (v : Payload) (htag : '/' ∉ tag) :
    listUnder [(getKeyOf tag, v)] = [tag] := by
  have hs : startsWithKey roletagListNS (getKeyOf tag) = true := startsWithKey_append _ _
  have hd : (getKeyOf tag).drop roletagListNS.length = tag := List.drop_left _ _
  simp [listUnder, hs, hd, firstComponent_of_no_slash htag]

theorem sweepOps_mem (decode : Payload → Except String BlacklistEntry)
    (buf now : Int) :
    ∀ (ts : List Key) (data : List (Key × Payload)) (op : StorageOp),
      op ∈ sweepOps decode buf now ts data →
      ∃ q ∈ ts, op = StorageOp.get (getKeyOf q) ∨ op = StorageOp.delete (deleteKeyOf q) := by
  intro ts
  induction ts with
  | nil =>
    intro data op h
    simp [sweepOps] at h
  | cons q ts2 ih =>
    intro data op h
    simp only [sweepOps] at h
    by_cases he : expiredTagB decode buf now data q = true
    · simp only [he, if_true, List.mem_cons] at h
      rcases h with h | h | h
      · exact ⟨q, by simp, Or.inl h⟩
      · exact ⟨q, by simp, Or.inr h⟩
      · rcases ih _ op h with ⟨r, hr, hop⟩
        exact ⟨r, by simp [hr], hop⟩
    · rw [bool_false_of_not_true he] at h
      simp only [Bool.false_eq_true, if_false, List.mem_cons] at h
      rcases h with h | h
      · exact ⟨q, by simp, Or.inl h⟩
      · rcases ih _ op h with ⟨r, hr, hop⟩
        exact ⟨r, by simp [hr], hop⟩

theorem split_not_mem {data : List (Key × Payload)} {pre post : List Key} {t : Key}
    (hsplit : listUnder data = pre ++ t :: post) : t ∉ pre ∧ t ∉ post := by
  have hnd := listUnder_nodup data
  rw [hsplit, List.nodup_append] at hnd
  rcases hnd with ⟨_, h2, h3⟩
  rw [List.nodup_cons] at h2
  exact ⟨fun hp => h3 hp (by simp), h2.1⟩

/-! ### The claims -/

/-- C1: the claim says the delete key and the fetch key of a listed tag are
both the namespace `"blacklist/roletag/"` followed by the tag.  The code
builds the delete key without the trailing separator (source line 70), so
the two keys always differ; at the failing input (a single expired entry
under tag `"t"`) the sweep fetches `"blacklist/roletag/t"` but issues its
delete for `"blacklist/roletagt"`, and the fetched entry is still in
storage when the sweep returns success.  This contradicts the endpoint's
own help text, which promises that expired entries are deleted. -/
theorem c1_delete_key_mismatch :
    deleteKeyOf "t".toList ≠ getKeyOf "t".toList ∧
    (tidyBlacklistRoleTag decode0
        ⟨[(getKeyOf "t".toList, [1])], false, [], []⟩ 0 0 10).ops =
      [StorageOp.list roletagListNS, StorageOp.get (getKeyOf "t".toList),
        StorageOp.delete (deleteKeyOf "t".toList), StorageOp.storeGuard] ∧
    (tidyBlacklistRoleTag decode0
        ⟨[(getKeyOf "t".toList, [1])], false, [], []⟩ 0 0 10).err = none ∧
    dataLookup (tidyBlacklistRoleTag decode0
        ⟨[(getKeyOf "t".toList, [1])], false, [], []⟩ 0 0 10).data
      (getKeyOf "t".toList) = some [1] := by
  refine ⟨by decide, by decide, by decide, by decide⟩

/-- C5: an invocation that finds the guard flag already set (any non-zero
value of the CAS guard) returns the already-running error immediately:
no storage operation is performed, the data is unchanged, and the guard
keeps its value (it stays held by the running sweep). -/
theorem c5_already_running (decode : Payload → Except String BlacklistEntry)
    (st : StorageModel) (g : Nat) (safety_buffer now : Int) (hg : g ≠ 0) :
    tidyBlacklistRoleTag decode st g safety_buffer now =
      { err := some SweepError.alreadyRunning, data := st.data,
        guard := g, ops := [] } := by
  simp [tidyBlacklistRoleTag, hg]

/-- Witness for C5 at a concrete input: guard value 1, one stored entry. -/
theorem c5_already_running_witness :
    tidyBlacklistRoleTag decode0
        ⟨[(getKeyOf "aa".toList, [1])], false, [], []⟩ 1 259200 10 =
      { err := some SweepError.alreadyRunning,
        data := [(getKeyOf "aa".toList, [1])], guard := 1, ops := [] } :=
  c5_already_running decode0 ⟨[(getKeyOf "aa".toList, [1])], false, [], []⟩ 1 259200 10
    (by decide)

/-- C8: when listing succeeds and returns no tags, the sweep returns
success (`nil`), the storage is unchanged, and the only operations
performed are the listing itself and the deferred guard release — no
fetch and no delete. -/
theorem c8_empty_namespace (decode : Payload → Except String BlacklistEntry)
    (st : StorageModel) (safety_buffer now : Int)
    (hlf : st.listFails = false) (hempty : listUnder st.data = []) :
    tidyBlacklistRoleTag decode st 0 safety_buffer now =
      { err := none, data := st.data, guard := 0,
        ops := [StorageOp.list roletagListNS, StorageOp.storeGuard] } := by
  rw [tidy_grabbed decode st safety_buffer now hlf, hempty]
  simp [tidyLoop]

/-- Witness for C8 at a concrete input: the empty storage. -/
theorem c8_empty_namespace_witness :
    tidyBlacklistRoleTag decode0 ⟨[], false, [], []⟩ 0 259200 10 =
      { err := none, data := [], guard := 0,
        ops := [StorageOp.list roletagListNS, StorageOp.storeGuard] } :=
  c8_empty_namespace decode0 ⟨[], false, [], []⟩ 259200 10 rfl rfl

/-- C4: an invocation that acquires the guard (flag value 0) releases it
before returning, whatever the outcome: the returned guard value is 0,
exactly one guard-release store appears in the trace, and any subsequent
invocation run against the returned guard value does not observe the
already-running error — it can acquire the guard. -/
theorem c4_guard_release (decode : Payload → Except String BlacklistEntry)
    (st : StorageModel) (safety_buffer now : Int) :
    (tidyBlacklistRoleTag decode st 0 safety_buffer now).guard = 0 ∧
    (tidyBlacklistRoleTag decode st 0 safety_buffer now).ops.count
      StorageOp.storeGuard = 1 ∧
    ∀ (decode2 : Payload → Except String BlacklistEntry) (st2 : StorageModel)
      (sb2 now2 : Int),
      (tidyBlacklistRoleTag decode2 st2
          (tidyBlacklistRoleTag decode st 0 safety_buffer now).guard sb2 now2).err ≠
        some SweepError.alreadyRunning := by
  have hguard : (tidyBlacklistRoleTag decode st 0 safety_buffer now).guard = 0 := by
    by_cases hlf : st.listFails = true
    · simp [tidyBlacklistRoleTag, hlf]
    · rw [tidy_grabbed decode st safety_buffer now (bool_false_of_not_true hlf)]
  refine ⟨hguard, ?_, ?_⟩
  · by_cases hlf : st.listFails = true
    · simp [tidyBlacklistRoleTag, hlf]
    · rw [tidy_grabbed decode st safety_buffer now (bool_false_of_not_true hlf)]
      have h0 : (tidyLoop decode st (safety_buffer * 1000000000) now
          (listUnder st.data) st.data).2.2.count StorageOp.storeGuard = 0 :=
        List.count_eq_zero.mpr
          (tidyLoop_no_storeGuard decode st (safety_buffer * 1000000000) now
            (listUnder st.data) st.data)
      simp [List.count_cons, List.count_append, h0]
  · intro decode2 st2 sb2 now2
    rw [hguard]
    exact tidy_not_alreadyRunning decode2 st2 sb2 now2

/-- C7: the claim says a second sweep (after a first completes successfully,
nothing inserted in between) deletes nothing because the first removed all
qualifying entries.  Because the first sweep deletes under the slash-less
key (source line 70), it removes nothing: at the failing input the first
run returns success yet the expired entry is still stored, and the second
run lists the same tag and issues the same delete again.  As with C1, this
contradicts the endpoint's own help text ("all the entries that are expired
will be deleted"). -/
theorem c7_not_idempotent :
    (tidyBlacklistRoleTag decode0
        ⟨[(getKeyOf "aa".toList, [1])], false, [], []⟩ 0 0 10).err = none ∧
    (tidyBlacklistRoleTag decode0
        ⟨[(getKeyOf "aa".toList, [1])], false, [], []⟩ 0 0 10).data =
      [(getKeyOf "aa".toList, [1])] ∧
    StorageOp.delete (deleteKeyOf "aa".toList) ∈
      (tidyBlacklistRoleTag decode0
        ⟨(tidyBlacklistRoleTag decode0
            ⟨[(getKeyOf "aa".toList, [1])], false, [], []⟩ 0 0 10).data,
          false, [], []⟩ 0 0 10).ops := by
  refine ⟨by decide, by decide, by decide⟩

/-- C2 counterexample: a namespace in which the first listed entry is
expired and the second is malformed (empty payload).  The sweep deletes
the first entry's delete key — which removes an existing binding — before
aborting at the second, so the storage is changed when the error is
returned, and the trace contains a delete.  This falsifies the claim that
no entries are deleted and the storage is unchanged. -/
theorem c2_counterexample_partial_delete :
    (tidyBlacklistRoleTag decode0
        ⟨[("blacklist/roletagaa".toList, [9]), (getKeyOf "aa".toList, [1]),
          (getKeyOf "bb".toList, [])], false, [], []⟩ 0 0 10).err =
      some (SweepError.emptyEntry "bb".toList) ∧
    (tidyBlacklistRoleTag decode0
        ⟨[("blacklist/roletagaa".toList, [9]), (getKeyOf "aa".toList, [1]),
          (getKeyOf "bb".toList, [])], false, [], []⟩ 0 0 10).data ≠
      [("blacklist/roletagaa".toList, [9]), (getKeyOf "aa".toList, [1]),
        (getKeyOf "bb".toList, [])] ∧
    StorageOp.delete ("blacklist/roletagaa".toList) ∈
      (tidyBlacklistRoleTag decode0
        ⟨[("blacklist/roletagaa".toList, [9]), (getKeyOf "aa".toList, [1]),
          (getKeyOf "bb".toList, [])], false, [], []⟩ 0 0 10).ops := by
  refine ⟨by decide, by decide, by decide⟩

/-- C6 counterexample: two storages whose single (and only) listed tags
differ — `"aa"` and `"bb"` — but hold the same undecodable payload.  The
sweep returns the *same* error value for both (the raw decode message,
returned unwrapped at source line 66), so the error cannot identify which
key failed to decode. -/
theorem c6_counterexample_error_lacks_key :
    (tidyBlacklistRoleTag decode0
        ⟨[(getKeyOf "aa".toList, [1, 2])], false, [], []⟩ 0 0 10).err =
      (tidyBlacklistRoleTag decode0
        ⟨[(getKeyOf "bb".toList, [1, 2])], false, [], []⟩ 0 0 10).err ∧
    (tidyBlacklistRoleTag decode0
        ⟨[(getKeyOf "aa".toList, [1, 2])], false, [], []⟩ 0 0 10).err =
      some (SweepError.decodeFailure "json: cannot unmarshal") ∧
    listUnder [(getKeyOf "aa".toList, [1, 2])] = ["aa".toList] ∧
    listUnder [(getKeyOf "bb".toList, [1, 2])] = ["bb".toList] := by
  refine ⟨by decide, by decide, by decide, by decide⟩

/-- C10: the sweep performs no validation of `safety_buffer`: called with a
negative buffer of `-k` seconds it proceeds normally (here: to success on a
well-formed one-entry namespace) and the deletion test of source line 69
becomes `now > expirationTime - k` seconds, so the delete is issued exactly
under that shifted threshold — in particular for entries that are not yet
expired (`now ≤ expirationTime`) but within `k` seconds of expiring. -/
theorem c10_negative_buffer (decode : Payload → Except String BlacklistEntry)
    (tag : Key) (v : Payload) (e : BlacklistEntry) (k now : Int)
    (htag : '/' ∉ tag) (hk : 0 < k) (hvne : v ≠ [])
    (hdec : decode v = Except.ok e) :
    (tidyBlacklistRoleTag decode
        ⟨[(getKeyOf tag, v)], false, [], []⟩ 0 (-k) now).err = none ∧
    (StorageOp.delete (deleteKeyOf tag) ∈
        (tidyBlacklistRoleTag decode
          ⟨[(getKeyOf tag, v)], false, [], []⟩ 0 (-k) now).ops ↔
      now > e.expirationTime - k * 1000000000) := by
  have hlist : listUnder [(getKeyOf tag, v)] = [tag] := listUnder_singleton tag v htag
  have hlk : dataLookup [(getKeyOf tag, v)] (getKeyOf tag) = some v := by
    simp [dataLookup]
  rw [tidy_grabbed decode ⟨[(getKeyOf tag, v)], false, [], []⟩ (-k) now rfl]
  dsimp only
  rw [hlist]
  simp only [tidyLoop]
  rw [if_neg (List.not_mem_nil (getKeyOf tag))]
  rw [hlk]
  dsimp only
  rw [if_neg hvne, hdec]
  dsimp only
  rw [show e.expirationTime - k * 1000000000 =
    e.expirationTime + (-k) * 1000000000 from by ring]
  by_cases h3 : now > e.expirationTime + (-k) * 1000000000
  · rw [if_pos h3, if_neg (List.not_mem_nil (deleteKeyOf tag))]
    simp only [tidyLoop]
    refine ⟨trivial, iff_of_true ?_ h3⟩
    simp
  · rw [if_neg h3]
    simp only [tidyLoop]
    refine ⟨trivial, iff_of_false ?_ h3⟩
    intro hmem
    simp at hmem

/-- Witness for C10 at a concrete input: buffer `-5` seconds, an entry
expiring at time 7 ns evaluated at time 0 — the entry is not yet expired,
yet the sweep succeeds and issues its delete. -/
theorem c10_negative_buffer_witness :
    (tidyBlacklistRoleTag decode0
        ⟨[(getKeyOf "aa".toList, [7])], false, [], []⟩ 0 (-5) 0).err = none ∧
    StorageOp.delete (deleteKeyOf "aa".toList) ∈
      (tidyBlacklistRoleTag decode0
        ⟨[(getKeyOf "aa".toList, [7])], false, [], []⟩ 0 (-5) 0).ops :=
  ⟨(c10_negative_buffer decode0 "aa".toList [7] ⟨7⟩ 5 0 (by decide) (by decide)
      (by decide) rfl).1,
    (c10_negative_buffer decode0 "aa".toList [7] ⟨7⟩ 5 0 (by decide) (by decide)
      (by decide) rfl).2.mpr (by decide)⟩

/-- C3: for an entry the loop reaches (every earlier listed tag processes
without aborting) whose payload decodes to expiration time `T`, the sweep
issues a delete for that entry if and only if `now > T + B` where `B` is
the buffer duration — the strict `time.Now().After` comparison of source
line 69; at `now = T + B` or below, no delete is issued for it. -/
theorem c3_expiration_boundary (decode : Payload → Except String BlacklistEntry)
    (st : StorageModel) (safety_buffer now : Int)
    (pre post : List Key) (t : Key) (v : Payload) (e : BlacklistEntry)
    (hlf : st.listFails = false)
    (hsplit : listUnder st.data = pre ++ t :: post)
    (hpre : segmentOK decode st (safety_buffer * 1000000000) now pre st.data = true)
    (hget : getKeyOf t ∉ st.getFails)
    (hv : dataLookup (sweepData decode (safety_buffer * 1000000000) now pre st.data)
      (getKeyOf t) = some v)
    (hvne : v ≠ [])
    (hdec : decode v = Except.ok e) :
    (StorageOp.delete (deleteKeyOf t) ∈
        (tidyBlacklistRoleTag decode st 0 safety_buffer now).ops ↔
      now > e.expirationTime + safety_buffer * 1000000000) := by
  rcases split_not_mem hsplit with ⟨htpre, htpost⟩
  rw [tidy_grabbed decode st safety_buffer now hlf]
  dsimp only
  rw [hsplit, tidyLoop_segment decode st (safety_buffer * 1000000000) now pre
    (t :: post) st.data hpre]
  dsimp only
  simp only [tidyLoop]
  rw [if_neg hget, hv]
  dsimp only
  rw [if_neg hvne, hdec]
  dsimp only
  by_cases h3 : now > e.expirationTime + safety_buffer * 1000000000
  · rw [if_pos h3]
    refine iff_of_true ?_ h3
    by_cases h4 : deleteKeyOf t ∈ st.deleteFails
    · rw [if_pos h4]
      simp
    · rw [if_neg h4]
      dsimp only
      simp
  · rw [if_neg h3]
    dsimp only
    refine iff_of_false ?_ h3
    intro hmem
    simp only [List.mem_cons, List.mem_append] at hmem
    rcases hmem with h | h | h
    · simp at h
    · rcases h with h | h
      · rcases sweepOps_mem decode (safety_buffer * 1000000000) now pre st.data _ h
          with ⟨q, hq, hop | hop⟩
        · simp at hop
        · simp only [StorageOp.delete.injEq] at hop
          exact htpre (deleteKeyOf_inj hop ▸ hq)
      · rcases h with h | h
        · simp at h
        · rcases tidyLoop_ops_mem decode st (safety_buffer * 1000000000) now post
            (sweepData decode (safety_buffer * 1000000000) now pre st.data) _ h
            with ⟨q, hq, hop | hop⟩
          · simp at hop
          · simp only [StorageOp.delete.injEq] at hop
            exact htpost (deleteKeyOf_inj hop ▸ hq)
    · simp at h

/-- Witness for C3 at a concrete input sitting exactly on the boundary:
one entry expiring at 5 ns, buffer 0, evaluated at `now = 5` — by the
theorem's iff, no delete is issued for it. -/
theorem c3_expiration_boundary_witness :
    StorageOp.delete (deleteKeyOf "aa".toList) ∉
      (tidyBlacklistRoleTag decode0
        ⟨[(getKeyOf "aa".toList, [5])], false, [], []⟩ 0 0 5).ops :=
  fun hmem =>
    absurd ((c3_expiration_boundary decode0
        ⟨[(getKeyOf "aa".toList, [5])], false, [], []⟩ 0 5 [] [] "aa".toList [5] ⟨5⟩
        rfl (by decide) rfl (by decide) (by decide) (by decide) rfl).mp hmem)
      (by decide)

/-- C2 amended: when the listing is `pre ++ [t] ++ post`, every entry of
`pre` processes without aborting, and `t`'s fetched payload is empty, the
sweep aborts with the empty-entry error naming `t`; it performs fetches
for `pre` and `t` only and no operation at all for `post`, issues deletes
exactly for the entries of `pre` evaluated as expired (this is what the
counterexample forces: expired entries *before* the malformed one do get
deletes issued, so the storage can change), and the data on return is the
initial data minus exactly those entries' delete keys. -/
theorem c2_abort_empty_entry (decode : Payload → Except String BlacklistEntry)
    (st : StorageModel) (safety_buffer now : Int)
    (pre post : List Key) (t : Key)
    (hlf : st.listFails = false)
    (hsplit : listUnder st.data = pre ++ t :: post)
    (hpre : segmentOK decode st (safety_buffer * 1000000000) now pre st.data = true)
    (hget : getKeyOf t ∉ st.getFails)
    (hv : dataLookup (sweepData decode (safety_buffer * 1000000000) now pre st.data)
      (getKeyOf t) = some []) :
    tidyBlacklistRoleTag decode st 0 safety_buffer now =
      { err := some (SweepError.emptyEntry t),
        data := sweepData decode (safety_buffer * 1000000000) now pre st.data,
        guard := 0,
        ops := StorageOp.list roletagListNS ::
          ((sweepOps decode (safety_buffer * 1000000000) now pre st.data ++
            [StorageOp.get (getKeyOf t)]) ++ [StorageOp.storeGuard]) } := by
  rw [tidy_grabbed decode st safety_buffer now hlf]
  rw [hsplit, tidyLoop_segment decode st (safety_buffer * 1000000000) now pre
    (t :: post) st.data hpre]
  simp only [tidyLoop]
  rw [if_neg hget, hv]
  dsimp only
  rw [if_pos rfl]

/-- Witness for C2's amended theorem at a concrete input: entry `"aa"` is
expired, entry `"bb"` is malformed. -/
theorem c2_abort_empty_entry_witness :
    tidyBlacklistRoleTag decode0
        ⟨[(getKeyOf "aa".toList, [1]), (getKeyOf "bb".toList, [])], false, [], []⟩
        0 0 10 =
      { err := some (SweepError.emptyEntry "bb".toList),
        data := sweepData decode0 (0 * 1000000000) 10 ["aa".toList]
          [(getKeyOf "aa".toList, [1]), (getKeyOf "bb".toList, [])],
        guard := 0,
        ops := StorageOp.list roletagListNS ::
          ((sweepOps decode0 (0 * 1000000000) 10 ["aa".toList]
              [(getKeyOf "aa".toList, [1]), (getKeyOf "bb".toList, [])] ++
            [StorageOp.get (getKeyOf "bb".toList)]) ++ [StorageOp.storeGuard]) } :=
  c2_abort_empty_entry decode0
    ⟨[(getKeyOf "aa".toList, [1]), (getKeyOf "bb".toList, [])], false, [], []⟩
    0 10 ["aa".toList] [] "bb".toList rfl (by decide) (by decide) (by decide)
    (by decide)

/-- C6 amended: when the loop reaches a tag whose non-empty payload fails
to decode, the sweep aborts and returns the decode error — but that error
carries only the decoder's message, a function of the payload alone; it
does not identify which key failed (the counterexample shows two different
keys with the same payload yielding the identical error value). -/
theorem c6_decode_abort (decode : Payload → Except String BlacklistEntry)
    (st : StorageModel) (safety_buffer now : Int)
    (pre post : List Key) (t : Key) (v : Payload) (msg : String)
    (hlf : st.listFails = false)
    (hsplit : listUnder st.data = pre ++ t :: post)
    (hpre : segmentOK decode st (safety_buffer * 1000000000) now pre st.data = true)
    (hget : getKeyOf t ∉ st.getFails)
    (hv : dataLookup (sweepData decode (safety_buffer * 1000000000) now pre st.data)
      (getKeyOf t) = some v)
    (hvne : v ≠ [])
    (hdec : decode v = Except.error msg) :
    (tidyBlacklistRoleTag decode st 0 safety_buffer now).err =
      some (SweepError.decodeFailure msg) := by
  rw [tidy_grabbed decode st safety_buffer now hlf]
  dsimp only
  rw [hsplit, tidyLoop_segment decode st (safety_buffer * 1000000000) now pre
    (t :: post) st.data hpre]
  dsimp only
  simp only [tidyLoop]
  rw [if_neg hget, hv]
  dsimp only
  rw [if_neg hvne, hdec]

/-- Witness for C6's amended theorem at a concrete input. -/
theorem c6_decode_abort_witness :
    (tidyBlacklistRoleTag decode0
        ⟨[(getKeyOf "aa".toList, [1, 2])], false, [], []⟩ 0 0 10).err =
      some (SweepError.decodeFailure "json: cannot unmarshal") :=
  c6_decode_abort decode0 ⟨[(getKeyOf "aa".toList, [1, 2])], false, [], []⟩ 0 10
    [] [] "aa".toList [1, 2] "json: cannot unmarshal"
    rfl (by decide) rfl (by decide) (by decide) (by decide) rfl

/-- C9: on well-formed storage (no stored key ends in the path separator,
i.e. directory names are not entries), the sweep only ever removes
bindings — every binding present on return was present before, with the
same payload (it never writes or overwrites) — and a listed entry whose
payload decodes to an expiration that does not satisfy
`now > expirationTime + buffer` has no delete issued for its delete key
and is still bound to the same payload when the sweep returns, whatever
the guard state and outcome. -/
theorem c9_frame_only_deletes (decode : Payload → Except String BlacklistEntry)
    (st : StorageModel) (g : Nat) (safety_buffer now : Int)
    (hwf : NoDirEntries st.data) :
    (∀ k v, dataLookup (tidyBlacklistRoleTag decode st g safety_buffer now).data k =
        some v → dataLookup st.data k = some v) ∧
    (∀ t v e, t ∈ listUnder st.data →
      dataLookup st.data (getKeyOf t) = some v →
      decode v = Except.ok e →
      ¬ now > e.expirationTime + safety_buffer * 1000000000 →
      dataLookup (tidyBlacklistRoleTag decode st g safety_buffer now).data
        (getKeyOf t) = some v ∧
      StorageOp.delete (deleteKeyOf t) ∉
        (tidyBlacklistRoleTag decode st g safety_buffer now).ops) := by
  by_cases hg : g = 0
  · subst hg
    by_cases hlf : st.listFails = true
    · constructor
      · intro k v h
        simpa [tidyBlacklistRoleTag, hlf] using h
      · intro t v e ht hv hd hexp
        refine ⟨by simpa [tidyBlacklistRoleTag, hlf] using hv, ?_⟩
        simp [tidyBlacklistRoleTag, hlf]
    · have hlf2 : st.listFails = false := bool_false_of_not_true hlf
      rw [tidy_grabbed decode st safety_buffer now hlf2]
      dsimp only
      constructor
      · intro k v h
        exact (tidyLoop_basic decode st (safety_buffer * 1000000000) now
          (listUnder st.data) st.data).2.2 k v h
      · intro t v e ht hv hd hexp
        have hstab : ∀ q ∈ listUnder st.data, deleteKeyOf q ≠ getKeyOf t := by
          intro q hq he
          have hq2 : q = '/' :: t := deleteKeyOf_eq_getKeyOf.mp he
          rcases mem_listUnder hq with ⟨p, hp, hps, hfc⟩
          rw [hq2] at hfc
          have ht0 : t = [] := firstComponent_slash_head hfc.symm
          subst ht0
          rw [getKeyOf_nil] at hv
          rcases exists_of_dataLookup hv with ⟨p2, hp2, hp2k⟩
          exact hwf p2 hp2 (by rw [hp2k]; decide)
        have hexpB : expiredTagB decode (safety_buffer * 1000000000) now st.data t =
            false := by
          by_cases hvne : v = []
          · subst hvne
            simp [expiredTagB, hv]
          · simp [expiredTagB, hv, hvne, hd, hexp]
        constructor
        · rw [tidyLoop_lookup_preserved decode st (safety_buffer * 1000000000) now
            (listUnder st.data) st.data (getKeyOf t) hstab]
          exact hv
        · intro hmem
          simp only [List.mem_cons, List.mem_append] at hmem
          rcases hmem with h | h | h
          · simp at h
          · exact tidyLoop_no_delete_of_unexpired decode st (safety_buffer * 1000000000)
              now (listUnder st.data) st.data t hstab hexpB h
          · simp at h
  · constructor
    · intro k v h
      simpa [tidyBlacklistRoleTag, hg] using h
    · intro t v e ht hv hd hexp
      refine ⟨by simpa [tidyBlacklistRoleTag, hg] using hv, ?_⟩
      simp [tidyBlacklistRoleTag, hg]

/-- Witness for C9 at a concrete input: one unexpired entry, which survives
the sweep untouched with no delete issued. -/
theorem c9_frame_only_deletes_witness :
    dataLookup (tidyBlacklistRoleTag decode0
        ⟨[(getKeyOf "aa".toList, [5])], false, [], []⟩ 0 0 3).data
      (getKeyOf "aa".toList) = some [5] ∧
    StorageOp.delete (deleteKeyOf "aa".toList) ∉
      (tidyBlacklistRoleTag decode0
        ⟨[(getKeyOf "aa".toList, [5])], false, [], []⟩ 0 0 3).ops :=
  (c9_frame_only_deletes decode0 ⟨[(getKeyOf "aa".toList, [5])], false, [], []⟩ 0 0 3
      (by intro p hp; simp only [List.mem_singleton] at hp; subst hp; decide)).2
    "aa".toList [5] ⟨5⟩ (by decide) (by decide) rfl (by decide)
